import Mathlib

/-!
Verification development for the Vision Transformer implementation in
`src/vit.py`.

Tensors are modelled shallowly as a shape (list of dimension sizes) together
with a flat data list in row-major order, exactly the logical layout PyTorch
exposes.  Floating-point numbers are modelled by an arbitrary field `α`
(instantiated with `ℚ` for concrete evaluations); the transcendental scalar
functions the code delegates to the library (`exp` inside softmax, GELU, the
square root used by `dim ** 0.5` and by layer normalisation) are supplied as
an explicit record of scalar operations, since the claims under study never
depend on their numeric values.  Fallible tensor operations (the ones that
raise in Python/PyTorch) return `Option`/`Except`.
-/

set_option linter.unusedSectionVars false

namespace VitSpec

/-- `tabulate n f` is the length-`n` list `[f 0, f 1, …, f (n-1)]`. -/
def tabulate {α : Type} (n : ℕ) (f : ℕ → α) : List α :=
  (List.range n).map f

theorem tabulate_length {α : Type} (n : ℕ) (f : ℕ → α) :
    (tabulate n f).length = n := by
  simp [tabulate]

theorem tabulate_getD {α : Type} {n i : ℕ} (f : ℕ → α) (d : α) (h : i < n) :
    (tabulate n f).getD i d = f i := by
  simp [tabulate, List.getD_eq_getElem?_getD, List.getElem?_map,
    List.getElem?_range h]

/-- Row-major linearisation of a multi-index `idx` with respect to `shape`. -/
def flattenIdx : List ℕ → List ℕ → ℕ
  | _ :: ss, i :: is => i * ss.prod + flattenIdx ss is
  | _, _ => 0

/-- Row-major multi-index of the linear index `lin` with respect to `shape`. -/
def unflattenIdx : List ℕ → ℕ → List ℕ
  | [], _ => []
  | _ :: ss, lin => lin / ss.prod :: unflattenIdx ss (lin % ss.prod)

/-- A multi-index is valid for a shape when it has the same rank and is
componentwise below the dimension sizes. -/
def IdxValid (idx s : List ℕ) : Prop :=
  List.Forall₂ (· < ·) idx s

theorem IdxValid.prod_pos {idx s : List ℕ} (h : IdxValid idx s) :
    0 < s.prod := by
  induction h with
  | nil => simp
  | cons hd _ ih =>
      simp only [List.prod_cons]
      exact Nat.mul_pos (Nat.lt_of_le_of_lt (Nat.zero_le _) hd) ih

theorem flattenIdx_lt {idx s : List ℕ} (h : IdxValid idx s) :
    flattenIdx s idx < s.prod := by
  induction h with
  | cons hd ht ih =>
      rename_i a b as bs
      simp only [flattenIdx, List.prod_cons]
      calc a * bs.prod + flattenIdx bs as
          < a * bs.prod + bs.prod := Nat.add_lt_add_left ih _
        _ = (a + 1) * bs.prod := by ring
        _ ≤ b * bs.prod := Nat.mul_le_mul_right _ hd
  | nil => simp [flattenIdx]

theorem unflattenIdx_flattenIdx {idx s : List ℕ} (h : IdxValid idx s) :
    unflattenIdx s (flattenIdx s idx) = idx := by
  induction h with
  | nil => simp [unflattenIdx]
  | cons hd ht ih =>
      rename_i a b as bs
      have hpos : 0 < bs.prod := IdxValid.prod_pos ht
      have hlt : flattenIdx bs as < bs.prod := flattenIdx_lt ht
      simp only [unflattenIdx, flattenIdx]
      rw [Nat.add_comm (a * bs.prod) (flattenIdx bs as),
        Nat.add_mul_div_right _ _ hpos, Nat.add_mul_mod_self_right,
        Nat.div_eq_of_lt hlt, Nat.mod_eq_of_lt hlt, Nat.zero_add, ih]

theorem IdxValid.cons_inv {idx : List ℕ} {s0 : ℕ} {ss : List ℕ}
    (h : IdxValid idx (s0 :: ss)) :
    ∃ i is, idx = i :: is ∧ i < s0 ∧ IdxValid is ss := by
  cases h
  exact ⟨_, _, rfl, by assumption, by assumption⟩

theorem IdxValid.nil_inv {idx : List ℕ} (h : IdxValid idx []) : idx = [] := by
  cases h
  rfl

theorem unflattenIdx_valid :
    ∀ {s : List ℕ} {lin : ℕ}, lin < s.prod → IdxValid (unflattenIdx s lin) s
  | [], lin, _ => List.Forall₂.nil
  | s :: ss, lin, h => by
      have hpos : 0 < ss.prod := by
        rcases Nat.eq_zero_or_pos ss.prod with h0 | h0
        · simp [List.prod_cons, h0] at h
        · exact h0
      refine List.Forall₂.cons ?_ (unflattenIdx_valid ?_)
      · exact (Nat.div_lt_iff_lt_mul hpos).2 (by
          simpa [List.prod_cons, Nat.mul_comm] using h)
      · exact Nat.mod_lt _ hpos

/-- A tensor: a shape together with its flat data in row-major order. -/
structure Tensor (α : Type) where
  shape : List ℕ
  data : List α
deriving DecidableEq

/-- Well-formedness: the flat data holds exactly one scalar per position. -/
def Tensor.Wf {α : Type} (t : Tensor α) : Prop :=
  t.data.length = t.shape.prod

variable {α : Type} [Field α] [DecidableEq α]

/-- Value at a flat (row-major) position; positions past the end read as 0,
which never happens on valid indices of well-formed tensors. -/
def Tensor.getLin (t : Tensor α) (i : ℕ) : α :=
  t.data.getD i 0

/-- Value at a multi-index. -/
def Tensor.get (t : Tensor α) (idx : List ℕ) : α :=
  t.getLin (flattenIdx t.shape idx)

/-- The scalar functions this model leaves abstract: the library's `exp`
(inside `softmax`), GELU, and the square root (`** 0.5`, and the one inside
layer normalisation). -/
structure ScalarOps (α : Type) where
  exp : α → α
  gelu : α → α
  sqrt : α → α

/-- `torch.Tensor.reshape` to an explicit shape: succeeds exactly when the
element counts agree, and never reorders the (logical row-major) data. -/
def Tensor.reshape (t : Tensor α) (s : List ℕ) : Option (Tensor α) :=
  if s.prod = t.data.length then some ⟨s, t.data⟩ else none

/-- `torch.Tensor.reshape` where at most one entry may be `-1` (here `none`):
the missing size is inferred from the element count, failing when the product
of the known sizes is zero or does not divide the element count. -/
def Tensor.reshapeInfer (t : Tensor α) (spec : List (Option ℕ)) :
    Option (Tensor α) :=
  let known := (spec.map (fun o => o.getD 1)).prod
  if spec.count none = 0 then
    t.reshape (spec.map (fun o => o.getD 1))
  else if spec.count none = 1 then
    if 0 < known ∧ known ∣ t.data.length then
      some ⟨spec.map (fun o => o.getD (t.data.length / known)), t.data⟩
    else none
  else none

/-- `torch.Tensor.unfold dim size step`: slides a window of length `size`
with stride `step` along dimension `dim`; the windows become dimension `dim`
and a new trailing dimension of length `size` holds each window's entries.
Fails (raises) when `dim` is out of range or the window is longer than the
dimension.  The result is stated as the materialised row-major tensor, which
is what the `reshape` following it in the code observes. -/
def Tensor.unfoldDim (t : Tensor α) (dim size step : ℕ) : Option (Tensor α) :=
  let r := t.shape.length
  if dim < r ∧ 0 < step ∧ size ≤ t.shape.getD dim 0 then
    let nWin := (t.shape.getD dim 0 - size) / step + 1
    let s := t.shape.set dim nWin ++ [size]
    some ⟨s, tabulate s.prod (fun lin =>
      let idx := unflattenIdx s lin
      t.get ((idx.take r).set dim (idx.getD dim 0 * step + idx.getD r 0)))⟩
  else none

/-- Position of `j` in a permutation list. -/
def posIn (p : List ℕ) (j : ℕ) : ℕ :=
  p.findIdx (fun d => d == j)

/-- `torch.Tensor.permute`: axis `i` of the result is axis `p i` of the
input. -/
def Tensor.permute (t : Tensor α) (p : List ℕ) : Tensor α :=
  let s := p.map (fun d => t.shape.getD d 0)
  ⟨s, tabulate s.prod (fun lin =>
    let idx := unflattenIdx s lin
    t.get ((List.range t.shape.length).map (fun j => idx.getD (posIn p j) 0)))⟩

/-- Slice `t[i]` along the leading axis (Python's iteration/destructuring of
a tensor, as in `q, k, v = qkv.permute(…)`). -/
def Tensor.select0 (t : Tensor α) (i : ℕ) : Tensor α :=
  let s := t.shape.tail
  ⟨s, tabulate s.prod (fun lin => t.getLin (i * s.prod + lin))⟩

/-- Batched matrix product `a @ b` over the two trailing axes, with equal
leading (batch) axes — the only form the code uses.  Fails on mismatched
shapes, as the library does. -/
def Tensor.matmulLast (a b : Tensor α) : Option (Tensor α) :=
  let ra := a.shape.length
  if 2 ≤ ra ∧ a.shape.length = b.shape.length ∧
      a.shape.dropLast.dropLast = b.shape.dropLast.dropLast ∧
      a.shape.getD (ra - 1) 0 = b.shape.getD (ra - 2) 0 then
    let m := a.shape.getD (ra - 2) 0
    let kk := a.shape.getD (ra - 1) 0
    let p := b.shape.getD (ra - 1) 0
    let s := a.shape.dropLast ++ [p]
    some ⟨s, tabulate s.prod (fun lin =>
      let row := lin / p
      let j := lin % p
      (((List.range kk).map (fun k2 =>
        a.getLin (row * kk + k2) *
          b.getLin (row / m * (kk * p) + k2 * p + j))).sum))⟩
  else none

/-- Multiplication by a scalar on the right, `t * c` elementwise. -/
def Tensor.scaleBy (t : Tensor α) (c : α) : Tensor α :=
  ⟨t.shape, t.data.map (fun x => x * c)⟩

/-- `softmax(dim=-1)`: each row along the trailing axis is replaced by
`exp xᵢ / Σⱼ exp xⱼ` (the library's max-shift is a numerical-stability
rewriting of this same mathematical function). -/
def Tensor.softmaxLast (expFn : α → α) (t : Tensor α) : Tensor α :=
  let n := t.shape.getD (t.shape.length - 1) 0
  ⟨t.shape, tabulate t.shape.prod (fun i =>
    expFn (t.getLin i) /
      (((List.range n).map (fun j => expFn (t.getLin (i / n * n + j)))).sum))⟩

/-- `nn.Dropout p` in its active form: with rate 0 it is the identity;
otherwise each entry is zeroed where the Bernoulli draw (the `noise`
oracle) fires and rescaled by `1/(1-p)` where it does not.  (In eval mode
the layer is the identity, i.e. the `p = 0` branch.) -/
def Tensor.dropout (t : Tensor α) (p : α) (noise : ℕ → Bool) : Tensor α :=
  if p = 0 then t
  else ⟨t.shape, tabulate t.shape.prod (fun i =>
    if noise i then 0 else t.getLin i / (1 - p))⟩

/-- Elementwise addition `a + b` with the broadcasting the code relies on:
equal ranks, and every dimension of `b` either matches `a`'s or is 1 (this
is the in-place `x += pos_emb` form: the left operand's shape is the result
shape). -/
def Tensor.addBc (a b : Tensor α) : Option (Tensor α) :=
  if a.shape.length = b.shape.length ∧
      (List.zip a.shape b.shape).all (fun q => q.2 = q.1 ∨ q.2 = 1) then
    some ⟨a.shape, tabulate a.shape.prod (fun lin =>
      a.getLin lin +
        b.get (List.zipWith (fun i sb => i % sb) (unflattenIdx a.shape lin)
          b.shape))⟩
  else none

/-- `torch.cat(dim=1)` for the rank-3 tensors the code concatenates. -/
def Tensor.cat1 (a b : Tensor α) : Option (Tensor α) :=
  match a.shape, b.shape with
  | [b1, n1, e1], [b2, n2, e2] =>
      if b1 = b2 ∧ e1 = e2 then
        some ⟨[b1, n1 + n2, e1], tabulate (b1 * ((n1 + n2) * e1)) (fun lin =>
          let ch := lin % e1
          let tk := lin / e1 % (n1 + n2)
          let bi := lin / (e1 * (n1 + n2))
          if tk < n1 then a.getLin (bi * (n1 * e1) + tk * e1 + ch)
          else b.getLin (bi * (n2 * e1) + (tk - n1) * e1 + ch))⟩
      else none
  | _, _ => none

/-- `t.expand(m, -1, -1)` for a rank-3 tensor: a leading dimension of size 1
is broadcast to `m`; a leading dimension already of size `m` is left alone;
anything else fails. -/
def Tensor.expand0 (t : Tensor α) (m : ℕ) : Option (Tensor α) :=
  match t.shape with
  | s0 :: rest =>
      if s0 = 1 then
        some ⟨m :: rest, tabulate (m * rest.prod)
          (fun lin => t.getLin (lin % rest.prod))⟩
      else if s0 = m then some t
      else none
  | [] => none

/-- `x[:, 0]` on a rank-3 tensor: the token at sequence position 0. -/
def Tensor.tokenAt0 (t : Tensor α) : Option (Tensor α) :=
  match t.shape with
  | [b, n, e] =>
      if 0 < n then
        some ⟨[b, e], tabulate (b * e)
          (fun lin => t.getLin (lin / e * (n * e) + lin % e))⟩
      else none
  | _ => none

/-- `nn.Linear` with weight `W` (shape out×in, as the library stores it) and
optional bias: `y[…, o] = Σⱼ x[…, j] · W[o][j] + bias[o]`, applied to the
trailing axis.  Fails when the trailing axis does not match the weight's
input width. -/
def Tensor.linear (t : Tensor α) (w : List (List α)) (bias : Option (List α)) :
    Option (Tensor α) :=
  let inF := (w.headD []).length
  let outF := w.length
  match t.shape.getLast? with
  | some d =>
      if d = inF then
        let s := t.shape.dropLast ++ [outF]
        some ⟨s, tabulate s.prod (fun lin =>
          let r := lin / outF
          let o := lin % outF
          (((List.range inF).map (fun j =>
            t.getLin (r * inF + j) * ((w.getD o []).getD j 0))).sum) +
            (match bias with | some bv => bv.getD o 0 | none => 0))⟩
      else none
  | none => none

/-- `nn.LayerNorm`'s epsilon, `1e-5`. -/
def lnEps : α := 1 / 100000

/-- `nn.LayerNorm` over the trailing axis with affine parameters `g`, `bt`:
`y = (x - mean) / sqrt(var + eps) * g + bt`, variance biased (divide by n),
exactly the library semantics. -/
def Tensor.layerNorm (t : Tensor α) (sqrtFn : α → α) (g bt : List α) :
    Tensor α :=
  let n := t.shape.getD (t.shape.length - 1) 0
  ⟨t.shape, tabulate t.shape.prod (fun i =>
    let base := i / n * n
    let mu := (((List.range n).map (fun j => t.getLin (base + j))).sum) / (n : α)
    let vr := (((List.range n).map
      (fun j => (t.getLin (base + j) - mu) ^ 2)).sum) / (n : α)
    (t.getLin i - mu) / sqrtFn (vr + lnEps) * g.getD (i % n) 0 +
      bt.getD (i % n) 0)⟩

/-- `nn.GELU` applied elementwise, with the scalar function abstract. -/
def Tensor.geluMap (t : Tensor α) (g : α → α) : Tensor α :=
  ⟨t.shape, t.data.map g⟩

/-! ## The modules of `vit.py`

Each `nn.Module` is modelled by a structure of its learned parameters (the
values `__init__` creates) together with a `forward` function.  Dropout's
Bernoulli draws are passed in as explicit boolean oracles so that the
forward pass is an honest function of all of its inputs. -/

/-- Parameters of `MLP` (vit.py lines 5–16): two affine layers and a
dropout rate. -/
structure MLPP (α : Type) where
  fc1W : List (List α)
  fc1B : List α
  fc2W : List (List α)
  fc2B : List α
  drop : α

/-- `MLP.forward` (vit.py lines 18–22): fc1, GELU, fc2, dropout. -/
def MLP.forward (ops : ScalarOps α) (p : MLPP α) (noise : ℕ → Bool)
    (x : Tensor α) : Option (Tensor α) := do
  let a ← x.linear p.fc1W (some p.fc1B)
  let a := a.geluMap ops.gelu
  let a ← a.linear p.fc2W (some p.fc2B)
  pure (a.dropout p.drop noise)

/-- Parameters of `Attention` (vit.py lines 26–36): the construction-time
`dim` (from which `self.scale` is computed), the head count, the bias-free
`qkv` projection, the output projection, and the two dropout rates. -/
structure AttnP (α : Type) where
  dim : ℕ
  numHeads : ℕ
  qkvW : List (List α)
  outW : List (List α)
  outB : List α
  attnDrop : α
  projDrop : α

/-- `self.scale = 1. / dim ** 0.5` (vit.py line 29): the reciprocal square
root of the construction-time embedding dimension — the full model dimension,
not the per-head dimension. -/
def Attention.scale (ops : ScalarOps α) (dim : ℕ) : α :=
  1 / ops.sqrt (dim : α)

/-- `Attention.forward` (vit.py lines 38–53).  `b, n, c = x.shape` fails on
non-rank-3 input; `c // self.num_heads` raises for a zero head count; the
reshape/permute split the `qkv` projection into per-head `q`, `k`, `v`; the
scores are `q @ k^T * self.scale`; a non-null `mask` only triggers a log
message (lines 44–46) and has no effect on the value; softmax, attention
dropout, the weighted sum with `v`, head recombination, and the output
projection with its dropout follow. -/
def Attention.forward {μ : Type} (ops : ScalarOps α) (p : AttnP α)
    (nAttn nProj : ℕ → Bool) (x : Tensor α) (mask : Option μ) :
    Option (Tensor α) :=
  match x.shape with
  | [b, n, c] =>
      if p.numHeads = 0 then none else do
        let qkv0 ← x.linear p.qkvW none
        let qkvR ← qkv0.reshape [b, n, 3, p.numHeads, c / p.numHeads]
        let qkvP := qkvR.permute [2, 0, 3, 1, 4]
        let q := qkvP.select0 0
        let k := qkvP.select0 1
        let v := qkvP.select0 2
        let dot0 ← q.matmulLast (k.permute [0, 1, 3, 2])
        let dot := dot0.scaleBy (Attention.scale ops p.dim)
        let _ := mask
        let attn := (dot.softmaxLast ops.exp).dropout p.attnDrop nAttn
        let y ← attn.matmulLast v
        let y2 ← (y.permute [0, 2, 1, 3]).reshape [b, n, c]
        let out ← y2.linear p.outW (some p.outB)
        pure (out.dropout p.projDrop nProj)
  | _ => none

/-- `ImgPatches.forward` (vit.py lines 61–67): destructure the rank-4 shape,
unfold height then width with window and stride `patch_size`, and reshape to
`(b, -1, c * P * P)`. -/
def ImgPatches.forward (patchSize : ℕ) (img : Tensor α) : Option (Tensor α) :=
  match img.shape with
  | [b, c, _h, _w] => do
      let t1 ← img.unfoldDim 2 patchSize patchSize
      let t2 ← t1.unfoldDim 3 patchSize patchSize
      t2.reshapeInfer [some b, none, some (c * patchSize * patchSize)]
  | _ => none

/-- Parameters of one `nn.LayerNorm`. -/
structure LNP (α : Type) where
  gamma : List α
  beta : List α

/-- Parameters of `Block` (vit.py lines 70–76): two independent layer norms,
one attention, one MLP. -/
structure BlockP (α : Type) where
  ln1 : LNP α
  attn : AttnP α
  ln2 : LNP α
  mlp : MLPP α

/-- The dropout oracles one block consumes. -/
structure BNoise where
  attn : ℕ → Bool
  proj : ℕ → Bool
  mlp : ℕ → Bool

/-- `Block.forward` (vit.py lines 78–83): pre-norm residual attention, then
pre-norm residual MLP. -/
def Block.forward {μ : Type} (ops : ScalarOps α) (p : BlockP α) (ns : BNoise)
    (x : Tensor α) (mask : Option μ) : Option (Tensor α) := do
  let x1 := x.layerNorm ops.sqrt p.ln1.gamma p.ln1.beta
  let a ← Attention.forward ops p.attn ns.attn ns.proj x1 mask
  let xa ← x.addBc a
  let x2 := xa.layerNorm ops.sqrt p.ln2.gamma p.ln2.beta
  let m ← MLP.forward ops p.mlp ns.mlp x2
  xa.addBc m

/-- `Transformer.forward` (vit.py lines 93–96): apply the blocks in order,
passing the same mask to each. -/
def Transformer.forward {μ : Type} (ops : ScalarOps α) (bs : List (BlockP α))
    (ns : ℕ → BNoise) (x : Tensor α) (mask : Option μ) : Option (Tensor α) :=
  match bs with
  | [] => some x
  | b :: rest => do
      let y ← Block.forward ops b (ns 0) x mask
      Transformer.forward ops rest (fun i => ns (i + 1)) y mask

/-- The classification head: `MLP` when `use_mlp` is set, a single `nn.Linear`
otherwise (vit.py lines 121–124). -/
inductive HeadP (α : Type) where
  | mlpHead (p : MLPP α)
  | linearHead (w : List (List α)) (b : List α)

def Head.forward (ops : ScalarOps α) (h : HeadP α) (noise : ℕ → Bool)
    (x : Tensor α) : Option (Tensor α) :=
  match h with
  | .mlpHead p => MLP.forward ops p noise x
  | .linearHead w b => x.linear w (some b)

/-- Ways `ViT.__init__` raises. -/
inductive InitErr where
  | modZero
  | sizeNotDivisible
  | scaleDivZero
deriving DecidableEq

/-- The quantities `ViT.__init__` derives (vit.py lines 106–107). -/
structure ViTDims where
  numPatches : ℕ
  patchDim : ℕ
deriving DecidableEq

/-- `ViT.__init__` (vit.py lines 100–124).  `img_size % patch_size` raises
`ZeroDivisionError` when `patch_size == 0`; the only explicit validation is
`img_size % patch_size != 0`, which raises `ValueError` (lines 104–105) —
there is no check that `embed_dim` is divisible by `num_heads`.  Every
remaining line allocates layers and parameters and cannot raise, with one
exception: each `Block` constructs an `Attention`, whose
`self.scale = 1. / dim ** 0.5` (line 29) raises `ZeroDivisionError` when
`embed_dim == 0`, so that happens exactly when `depth ≥ 1 ∧ embed_dim = 0`. -/
def ViT.init (imgSize patchSize inCh numClasses : ℕ) (useMlp : Bool)
    (embedDim depth numHeads mlpMult : ℕ) : Except InitErr ViTDims :=
  let _ := (inCh, numClasses, useMlp, numHeads, mlpMult)
  if patchSize = 0 then .error .modZero
  else if imgSize % patchSize ≠ 0 then .error .sizeNotDivisible
  else if 0 < depth ∧ embedDim = 0 then .error .scaleDivZero
  else .ok ⟨(imgSize / patchSize) ^ 2, inCh * patchSize * patchSize⟩

/-- Parameters of `ViT` (vit.py lines 108–124). -/
structure ViTP (α : Type) where
  patchSize : ℕ
  patchEmbedW : List (List α)
  patchEmbedB : List α
  posEmb : Tensor α
  clsEmb : Tensor α
  blocks : List (BlockP α)
  normLN : LNP α
  headV : HeadP α

/-- The dropout oracles one `ViT.forward` call consumes. -/
structure ViTNoise where
  blocks : ℕ → BNoise
  head : ℕ → Bool

/-- `ViT.forward` (vit.py lines 126–137): read the batch size from
`x.shape[0]`, broadcast the class embedding, extract and embed patches,
prepend the class token, add the positional embedding in place, run the
transformer, take the class token's representation `x[:, 0]`, normalise it
and apply the classification head. -/
def ViT.forward {μ : Type} (ops : ScalarOps α) (p : ViTP α) (ns : ViTNoise)
    (x : Tensor α) (mask : Option μ) : Option (Tensor α) :=
  match x.shape with
  | [] => none
  | b :: _ => do
      let cls ← p.clsEmb.expand0 b
      let pt ← ImgPatches.forward p.patchSize x
      let emb ← pt.linear p.patchEmbedW (some p.patchEmbedB)
      let xc ← cls.cat1 emb
      let xp ← xc.addBc p.posEmb
      let xt ← Transformer.forward ops p.blocks ns.blocks xp mask
      let x0 ← xt.tokenAt0
      let xn := x0.layerNorm ops.sqrt p.normLN.gamma p.normLN.beta
      Head.forward ops p.headV ns.head xn

/-! ## Spec-side definition for the patch-extraction refinement

The claim about `ImgPatches` describes patch `j` as block `j` of the
row-major grid of non-overlapping `P×P` blocks, flattened with all channel
values of that block concatenated (channel-major within the patch). -/

/-- The patch sequence as the specification describes it: entry `d` of patch
`j` (for `j = gh·(W/P) + gw` in row-major grid order) is
`img[bi, ci, gh·P + k, gw·P + l]` where `d = ci·P² + k·P + l`. -/
def specPatchSeq (patchSize : ℕ) (img : Tensor α) : Option (Tensor α) :=
  let p := patchSize
  match img.shape with
  | [b, c, h, w] =>
      if 0 < p ∧ p ∣ h ∧ p ∣ w then
        some ⟨[b, h / p * (w / p), c * p * p],
          tabulate (b * (h / p * (w / p) * (c * p * p))) (fun lin =>
            let d := lin % (c * p * p)
            let j := lin / (c * p * p) % (h / p * (w / p))
            let bi := lin / (c * p * p * (h / p * (w / p)))
            let gh := j / (w / p)
            let gw := j % (w / p)
            let ci := d / (p * p)
            let k := d % (p * p) / p
            let l := d % p
            img.get [bi, ci, gh * p + k, gw * p + l])⟩
      else none
  | _ => none

/-! ## Helper lemmas -/

theorem Tensor.reshape_of_eq (t : Tensor α) {s : List ℕ}
    (h : s.prod = t.data.length) : t.reshape s = some ⟨s, t.data⟩ := by
  simp [Tensor.reshape, h]

theorem Tensor.reshape_of_ne (t : Tensor α) {s : List ℕ}
    (h : s.prod ≠ t.data.length) : t.reshape s = none := by
  simp [Tensor.reshape, h]

theorem headD_length_of_forall {w : List (List α)} {m d : ℕ}
    (hw : w.length = m) (hrows : ∀ r ∈ w, r.length = d) (hm : m = 0 → d = 0) :
    (w.headD []).length = d := by
  cases w with
  | nil =>
      simp only [List.length_nil] at hw
      simp [List.headD, hm hw.symm]
  | cons r rest => simpa using hrows r (by simp)

theorem Tensor.linear_shape (t : Tensor α) (w : List (List α))
    (bias : Option (List α))
    (h : t.shape.getLast? = some ((w.headD []).length)) :
    ∃ y, t.linear w bias = some y ∧
      y.shape = t.shape.dropLast ++ [w.length] ∧ y.Wf := by
  simp only [Tensor.linear, h]
  rw [if_pos trivial]
  exact ⟨_, rfl, rfl, by simp [Tensor.Wf, tabulate_length]⟩

theorem Tensor.dropout_shape (t : Tensor α) (p : α) (noise : ℕ → Bool) :
    (t.dropout p noise).shape = t.shape := by
  unfold Tensor.dropout
  split <;> rfl

theorem Tensor.dropout_wf {t : Tensor α} (p : α) (noise : ℕ → Bool)
    (h : t.Wf) : (t.dropout p noise).Wf := by
  unfold Tensor.dropout
  split
  · exact h
  · simp [Tensor.Wf, tabulate_length]

theorem Tensor.dropout_zero (t : Tensor α) (noise : ℕ → Bool) :
    t.dropout 0 noise = t := by
  simp [Tensor.dropout]

theorem Tensor.softmaxLast_shape (e : α → α) (t : Tensor α) :
    (t.softmaxLast e).shape = t.shape := rfl

theorem Tensor.softmaxLast_wf (e : α → α) (t : Tensor α) :
    (t.softmaxLast e).Wf := by
  simp [Tensor.Wf, Tensor.softmaxLast, tabulate_length]

theorem Tensor.scaleBy_shape (t : Tensor α) (c : α) :
    (t.scaleBy c).shape = t.shape := rfl

theorem Tensor.scaleBy_wf {t : Tensor α} (c : α) (h : t.Wf) :
    (t.scaleBy c).Wf := by
  simpa [Tensor.Wf, Tensor.scaleBy] using h

theorem Tensor.permute_wf (t : Tensor α) (p : List ℕ) :
    (t.permute p).Wf := by
  simp [Tensor.Wf, Tensor.permute, tabulate_length]

theorem Tensor.select0_wf (t : Tensor α) (i : ℕ) :
    (t.select0 i).Wf := by
  simp [Tensor.Wf, Tensor.select0, tabulate_length]

/-- A non-null mask is numerically inert in `Attention.forward`: the code
only prints a notice (vit.py lines 44–46). -/
theorem Attention.forward_mask_irrel {μ ν : Type} (ops : ScalarOps α) (p : AttnP α)
    (nAttn nProj : ℕ → Bool) (x : Tensor α) (m : Option μ) (m' : Option ν) :
    Attention.forward ops p nAttn nProj x m =
      Attention.forward ops p nAttn nProj x m' := by
  rcases hs : x.shape with _ | ⟨a, _ | ⟨b, _ | ⟨c, _ | ⟨d, t⟩⟩⟩⟩ <;>
    simp [Attention.forward, hs]

theorem Block.forward_mask_unused {μ ν : Type} (ops : ScalarOps α) (p : BlockP α)
    (ns : BNoise) (x : Tensor α) (m : Option μ) (m' : Option ν) :
    Block.forward ops p ns x m = Block.forward ops p ns x m' := by
  unfold Block.forward
  dsimp only
  rw [Attention.forward_mask_irrel ops p.attn ns.attn ns.proj _ m m']

theorem Transformer.forward_mask_inert {μ ν : Type} (ops : ScalarOps α)
    (bs : List (BlockP α)) (ns : ℕ → BNoise) (x : Tensor α) (m : Option μ)
    (m' : Option ν) :
    Transformer.forward ops bs ns x m = Transformer.forward ops bs ns x m' := by
  induction bs generalizing ns x with
  | nil => rfl
  | cons b rest ih =>
      unfold Transformer.forward
      rw [Block.forward_mask_unused ops b (ns 0) x m m']
      exact bind_congr fun y => ih _ y

theorem ViT.forward_mask_noop {μ ν : Type} (ops : ScalarOps α) (p : ViTP α)
    (ns : ViTNoise) (x : Tensor α) (m : Option μ) (m' : Option ν) :
    ViT.forward ops p ns x m = ViT.forward ops p ns x m' := by
  rcases hs : x.shape with _ | ⟨b, rest⟩ <;> simp only [ViT.forward, hs]
  refine bind_congr fun cls => bind_congr fun pt => bind_congr fun emb =>
    bind_congr fun xc => bind_congr fun xp => ?_
  rw [Transformer.forward_mask_inert ops p.blocks ns.blocks xp m m']

/-- Whether `ViT.__init__` returned normally rather than raising. -/
def initOk : Except InitErr ViTDims → Bool
  | .ok _ => true
  | .error _ => false

/-! ## Claims -/

/-- C1 (code_bug evidence): on the image of shape (1, 2, 1, 2) with values
`[[[0, 1]], [[2, 3]]]` and `patch_size = 1`, the code returns the patch
sequence `[[0, 1], [2, 3]]` — patch 0 holds channel 0 of BOTH spatial
blocks — whereas the claim (patch j = block j with all channel values
concatenated) requires `[[0, 2], [1, 3]]`.  The missing channel-grouping
permute before the reshape makes the two differ for every multi-channel
image. -/
theorem claim_C1 :
    ImgPatches.forward 1 (⟨[1, 2, 1, 2], [0, 1, 2, 3]⟩ : Tensor ℚ) =
      some ⟨[1, 2, 2], [0, 1, 2, 3]⟩ ∧
    specPatchSeq 1 (⟨[1, 2, 1, 2], [0, 1, 2, 3]⟩ : Tensor ℚ) =
      some ⟨[1, 2, 2], [0, 2, 1, 3]⟩ ∧
    ([0, 1, 2, 3] : List ℚ) ≠ [0, 2, 1, 3] := by
  refine ⟨by decide, by decide, by decide⟩

/-- C3: the scale factor applied to the raw attention scores is
`1 / sqrt D` for `D` the full construction-time embedding dimension
(`self.scale = 1. / dim ** 0.5`, vit.py line 29): `Attention.forward` is
exactly the pipeline whose pre-softmax scores are `q @ k^T` multiplied by
`1 / sqrt (p.dim)` — and (witnessed over `ℚ` with an injective stand-in for
the square root) this differs from the per-head scale `1 / sqrt (D / Hn)`,
e.g. at `D = 8`, `Hn = 2`. -/
theorem claim_C3 :
    (∀ (ops : ScalarOps α) (p : AttnP α) (nAttn nProj : ℕ → Bool)
      (x : Tensor α) (mask : Option Unit),
      Attention.forward ops p nAttn nProj x mask =
        match x.shape with
        | [b, n, c] =>
            if p.numHeads = 0 then none else do
              let qkv0 ← x.linear p.qkvW none
              let qkvR ← qkv0.reshape [b, n, 3, p.numHeads, c / p.numHeads]
              let qkvP := qkvR.permute [2, 0, 3, 1, 4]
              let q := qkvP.select0 0
              let k := qkvP.select0 1
              let v := qkvP.select0 2
              let dot0 ← q.matmulLast (k.permute [0, 1, 3, 2])
              let dot := dot0.scaleBy (1 / ops.sqrt (p.dim : α))
              let attn := (dot.softmaxLast ops.exp).dropout p.attnDrop nAttn
              let y ← attn.matmulLast v
              let y2 ← (y.permute [0, 2, 1, 3]).reshape [b, n, c]
              let out ← y2.linear p.outW (some p.outB)
              pure (out.dropout p.projDrop nProj)
        | _ => none) ∧
    Attention.scale (⟨id, id, id⟩ : ScalarOps ℚ) 8 ≠
      Attention.scale (⟨id, id, id⟩ : ScalarOps ℚ) (8 / 2) := by
  constructor
  · intro ops p nAttn nProj x mask
    rfl
  · intro h
    simp only [Attention.scale] at h
    norm_num at h

/-- C4: the mask argument has no effect: for every attention/ViT input and
every non-null mask, the output equals the same call with no mask (the code
only prints a notice for a non-null mask, vit.py lines 44–46). -/
theorem claim_C4 {μ : Type} (ops : ScalarOps α) (m : μ) :
    (∀ (p : ViTP α) (ns : ViTNoise) (x : Tensor α),
      ViT.forward ops p ns x (some m) =
        ViT.forward ops p ns x (none : Option μ)) ∧
    (∀ (p : AttnP α) (nAttn nProj : ℕ → Bool) (x : Tensor α),
      Attention.forward ops p nAttn nProj x (some m) =
        Attention.forward ops p nAttn nProj x (none : Option μ)) :=
  ⟨fun p ns x => ViT.forward_mask_noop ops p ns x (some m) none,
   fun p nAttn nProj x => Attention.forward_mask_irrel ops p nAttn nProj x (some m) none⟩

/-- C8: `Block.forward` is exactly the pre-norm residual composition
`y = x + Attention(LayerNorm₁(x), mask)` followed by
`out = y + FeedForward(LayerNorm₂(y))`, with the two layer norms separately
parameterised (`p.ln1` vs `p.ln2`). -/
theorem claim_C8 {μ : Type} (ops : ScalarOps α) (p : BlockP α) (ns : BNoise)
    (x : Tensor α) (mask : Option μ) :
    Block.forward ops p ns x mask = (do
      let a ← Attention.forward ops p.attn ns.attn ns.proj
        (x.layerNorm ops.sqrt p.ln1.gamma p.ln1.beta) mask
      let y ← x.addBc a
      let m2 ← MLP.forward ops p.mlp ns.mlp
        (y.layerNorm ops.sqrt p.ln2.gamma p.ln2.beta)
      y.addBc m2) := rfl

/-- C5 (counterexample): with `img_size = 0` and `patch_size = 0` the sizes
are divisible (`0 ∣ 0`), yet construction raises (`0 % 0` is a
`ZeroDivisionError` in Python), so "for divisible configurations
construction succeeds without raising" fails at this input. -/
theorem claim_C5_counterexample :
    (0 : ℕ) ∣ 0 ∧ initOk (ViT.init 0 0 3 1000 true 768 12 12 4) = false := by
  decide

/-- C5 (amended): for `patch_size ≥ 1` (and `embed_dim ≥ 1`, as in every
configuration the spec considers), construction succeeds exactly when
`img_size` is divisible by `patch_size`, raising the divisibility
`ValueError` otherwise; for `patch_size = 0` construction always raises. -/
theorem claim_C5_amended :
    (∀ imgSize patchSize inCh numClasses (useMlp : Bool) embedDim depth
      numHeads mlpMult, 0 < patchSize → 0 < embedDim →
      (initOk (ViT.init imgSize patchSize inCh numClasses useMlp embedDim
        depth numHeads mlpMult) = true ↔ patchSize ∣ imgSize)) ∧
    (∀ imgSize inCh numClasses (useMlp : Bool) embedDim depth numHeads
      mlpMult,
      initOk (ViT.init imgSize 0 inCh numClasses useMlp embedDim depth
        numHeads mlpMult) = false) := by
  constructor
  · intro imgSize patchSize inCh numClasses useMlp embedDim depth numHeads
      mlpMult hp hD
    have hp0 : patchSize ≠ 0 := Nat.pos_iff_ne_zero.mp hp
    have hD0 : embedDim ≠ 0 := Nat.pos_iff_ne_zero.mp hD
    by_cases hm : imgSize % patchSize = 0 <;>
      simp [ViT.init, hp0, hm, hD0, initOk, Nat.dvd_iff_mod_eq_zero]
  · intro imgSize inCh numClasses useMlp embedDim depth numHeads mlpMult
    simp [ViT.init, initOk]

/-- C5 (witness for the amended theorem at the defaults 224/16 and at
patch size 0). -/
theorem claim_C5_witness :
    (initOk (ViT.init 224 16 3 1000 true 768 12 12 4) = true ↔
      (16 : ℕ) ∣ 224) ∧
    initOk (ViT.init 7 0 3 1000 true 768 12 12 4) = false :=
  ⟨claim_C5_amended.1 224 16 3 1000 true 768 12 12 4 (by decide) (by decide),
   claim_C5_amended.2 7 3 1000 true 768 12 12 4⟩

/-- C2 (counterexample): `embed_dim = 5` is not divisible by
`num_heads = 2`, yet `ViT.__init__` returns normally — there is no
construction-time validation of this divisibility. -/
theorem claim_C2_counterexample :
    ¬ (2 : ℕ) ∣ 5 ∧ initOk (ViT.init 4 2 3 10 true 5 1 2 4) = true := by
  decide

/-- C2 (amended): no `embed_dim % num_heads` validation happens at
construction time — `ViT.__init__` returns normally for every configuration
with divisible image/patch sizes whatever `embed_dim` and `num_heads` are —
and the misconfiguration instead surfaces at forward time: when `num_heads`
does not divide the width of the input sequence, `Attention.forward` fails
at the `qkv` reshape (line 40). -/
theorem claim_C2_amended :
    (∀ imgSize patchSize inCh numClasses (useMlp : Bool) embedDim depth
      numHeads mlpMult, 0 < patchSize → patchSize ∣ imgSize → 0 < embedDim →
      initOk (ViT.init imgSize patchSize inCh numClasses useMlp embedDim
        depth numHeads mlpMult) = true) ∧
    (∀ (ops : ScalarOps α) (p : AttnP α) (nAttn nProj : ℕ → Bool)
      (x : Tensor α) (mask : Option Unit) (bsz n d : ℕ),
      x.shape = [bsz, n, d] → 0 < bsz → 0 < n → 0 < p.numHeads →
      ¬ p.numHeads ∣ d → p.qkvW.length = 3 * d →
      (∀ r ∈ p.qkvW, r.length = d) →
      Attention.forward ops p nAttn nProj x mask = none) := by
  constructor
  · intro imgSize patchSize inCh numClasses useMlp embedDim depth numHeads
      mlpMult hp hdvd hD
    have hp0 : patchSize ≠ 0 := Nat.pos_iff_ne_zero.mp hp
    have hD0 : embedDim ≠ 0 := Nat.pos_iff_ne_zero.mp hD
    have hm : imgSize % patchSize = 0 := Nat.mod_eq_zero_of_dvd hdvd
    simp [ViT.init, hp0, hm, hD0, initOk]
  · intro ops p nAttn nProj x mask bsz n d hx hb hn hH hnd hqlen hqrows
    have hH0 : p.numHeads ≠ 0 := Nat.pos_iff_ne_zero.mp hH
    have hhead : ((p.qkvW.headD []).length) = d :=
      headD_length_of_forall hqlen hqrows (by omega)
    obtain ⟨y, hy, hys, hyw⟩ := x.linear_shape p.qkvW none (by
      rw [hx, hhead]
      rfl)
    have hys' : y.shape = [bsz, n, 3 * d] := by
      rw [hys, hx, hqlen]
      rfl
    have hlen : y.data.length = bsz * (n * (3 * d)) := by
      have := hyw
      rw [Tensor.Wf, hys'] at this
      simpa using this
    have hne : ([bsz, n, 3, p.numHeads, d / p.numHeads] : List ℕ).prod ≠
        y.data.length := by
      rw [hlen]
      simp only [List.prod_cons, List.prod_nil, Nat.mul_one]
      intro heq
      apply hnd
      have h1 : n * (3 * (p.numHeads * (d / p.numHeads))) = n * (3 * d) :=
        Nat.eq_of_mul_eq_mul_left hb heq
      have h2 : 3 * (p.numHeads * (d / p.numHeads)) = 3 * d :=
        Nat.eq_of_mul_eq_mul_left hn h1
      have h3 : p.numHeads * (d / p.numHeads) = d :=
        Nat.eq_of_mul_eq_mul_left (by norm_num) h2
      exact ⟨d / p.numHeads, h3.symm⟩
    simp [Attention.forward, hx, hH0, hy, Tensor.reshape_of_ne y hne]

/-- C2 (witness): at the concrete misconfiguration `embed_dim = 5`,
`num_heads = 2`, construction succeeds and the attention forward pass
fails. -/
theorem claim_C2_witness :
    initOk (ViT.init 4 2 3 10 true 5 1 2 4) = true ∧
    Attention.forward (⟨id, id, id⟩ : ScalarOps ℚ)
      ⟨5, 2, List.replicate 15 (List.replicate 5 0), [[1]], [0], 0, 0⟩
      (fun _ => false) (fun _ => false) ⟨[1, 1, 5], List.replicate 5 1⟩
      (none : Option Unit) = none :=
  ⟨(claim_C2_amended (α := ℚ)).1 4 2 3 10 true 5 1 2 4 (by decide) (by decide)
      (by decide),
   (claim_C2_amended (α := ℚ)).2 ⟨id, id, id⟩
      ⟨5, 2, List.replicate 15 (List.replicate 5 0), [[1]], [0], 0, 0⟩
      (fun _ => false) (fun _ => false) ⟨[1, 1, 5], List.replicate 5 1⟩ none
      1 1 5 rfl (by decide) (by decide) (by decide) (by decide) (by decide)
      (by decide)⟩

/-! ## Determinism of the forward pass with dropout disabled -/

/-- A head with no active dropout. -/
def HeadP.dropFree : HeadP α → Prop
  | .mlpHead p => p.drop = 0
  | .linearHead _ _ => True

/-- All dropout rates of a ViT parameterisation are zero (the
`drop_rate = 0` / inference configuration; the head MLP is always built
with rate 0, vit.py line 122). -/
def ViTP.dropFree (p : ViTP α) : Prop :=
  (∀ bp ∈ p.blocks, bp.attn.attnDrop = 0 ∧ bp.attn.projDrop = 0 ∧
    bp.mlp.drop = 0) ∧ p.headV.dropFree

theorem MLP.forward_noise_free (ops : ScalarOps α) {p : MLPP α}
    (h : p.drop = 0) (n1 n2 : ℕ → Bool) (x : Tensor α) :
    MLP.forward ops p n1 x = MLP.forward ops p n2 x := by
  simp [MLP.forward, h, Tensor.dropout_zero]

theorem Attention.forward_noise_irrel {μ : Type} (ops : ScalarOps α) {p : AttnP α}
    (h1 : p.attnDrop = 0) (h2 : p.projDrop = 0) (nA nP nA' nP' : ℕ → Bool)
    (x : Tensor α) (m : Option μ) :
    Attention.forward ops p nA nP x m = Attention.forward ops p nA' nP' x m := by
  rcases hs : x.shape with _ | ⟨a, _ | ⟨b, _ | ⟨c, _ | ⟨d, t⟩⟩⟩⟩ <;>
    simp [Attention.forward, hs, h1, h2, Tensor.dropout_zero]

theorem Block.forward_noise_unused {μ : Type} (ops : ScalarOps α) {p : BlockP α}
    (h1 : p.attn.attnDrop = 0) (h2 : p.attn.projDrop = 0)
    (h3 : p.mlp.drop = 0) (ns ns' : BNoise) (x : Tensor α) (m : Option μ) :
    Block.forward ops p ns x m = Block.forward ops p ns' x m := by
  unfold Block.forward
  dsimp only
  rw [Attention.forward_noise_irrel ops h1 h2 ns.attn ns.proj ns'.attn ns'.proj]
  refine bind_congr fun a => bind_congr fun xa => ?_
  rw [MLP.forward_noise_free ops h3 ns.mlp ns'.mlp]

theorem Transformer.forward_noise_inert {μ : Type} (ops : ScalarOps α)
    {bs : List (BlockP α)}
    (h : ∀ bp ∈ bs, bp.attn.attnDrop = 0 ∧ bp.attn.projDrop = 0 ∧
      bp.mlp.drop = 0) (ns ns' : ℕ → BNoise) (x : Tensor α) (m : Option μ) :
    Transformer.forward ops bs ns x m = Transformer.forward ops bs ns' x m := by
  induction bs generalizing ns ns' x with
  | nil => rfl
  | cons b rest ih =>
      unfold Transformer.forward
      obtain ⟨hb1, hb2, hb3⟩ := h b (by simp)
      rw [Block.forward_noise_unused ops hb1 hb2 hb3 (ns 0) (ns' 0) x m]
      refine bind_congr fun y => ih (fun bp hbp => h bp (by simp [hbp])) _ _ y

theorem Head.forward_noise_noop (ops : ScalarOps α) {hd : HeadP α}
    (h : hd.dropFree) (n1 n2 : ℕ → Bool) (x : Tensor α) :
    Head.forward ops hd n1 x = Head.forward ops hd n2 x := by
  cases hd with
  | mlpHead p => exact MLP.forward_noise_free ops h n1 n2 x
  | linearHead w b => rfl

/-! ## Patch extraction: general shape and element formula -/

theorem Tensor.unfoldDim_eq (t : Tensor α) (dim size step : ℕ)
    (h1 : dim < t.shape.length) (h2 : 0 < step)
    (h3 : size ≤ t.shape.getD dim 0) :
    t.unfoldDim dim size step =
      some ⟨t.shape.set dim ((t.shape.getD dim 0 - size) / step + 1) ++ [size],
        tabulate
          ((t.shape.set dim ((t.shape.getD dim 0 - size) / step + 1)
            ++ [size]).prod)
          (fun lin =>
            let idx := unflattenIdx
              (t.shape.set dim ((t.shape.getD dim 0 - size) / step + 1)
                ++ [size]) lin
            t.get ((idx.take t.shape.length).set dim
              (idx.getD dim 0 * step + idx.getD t.shape.length 0)))⟩ := by
  unfold Tensor.unfoldDim
  dsimp only
  rw [if_pos ⟨h1, h2, h3⟩]

theorem Tensor.get_mk_tabulate (s : List ℕ) (f : ℕ → α) {idx : List ℕ}
    (h : IdxValid idx s) :
    (Tensor.mk s (tabulate s.prod f)).get idx = f (flattenIdx s idx) := by
  simp only [Tensor.get, Tensor.getLin]
  exact tabulate_getD f 0 (flattenIdx_lt h)

theorem Tensor.getLin_mk_tabulate (s : List ℕ) (f : ℕ → α) {i : ℕ}
    (h : i < s.prod) :
    (Tensor.mk s (tabulate s.prod f)).getLin i = f i := by
  simp only [Tensor.getLin]
  exact tabulate_getD f 0 h

theorem Tensor.reshapeInfer_bk (t : Tensor α) (a k : ℕ)
    (hpos : 0 < a * k) (hdvd : a * k ∣ t.data.length) :
    t.reshapeInfer [some a, none, some k] =
      some ⟨[a, t.data.length / (a * k), k], t.data⟩ := by
  unfold Tensor.reshapeInfer
  dsimp only
  simp only [List.map_cons, List.map_nil, Option.getD_some, Option.getD_none,
    List.prod_cons, List.prod_nil, mul_one, one_mul]
  rw [show (([some a, none, some k] : List (Option ℕ)).count none) = 1
    from rfl]
  rw [if_neg one_ne_zero, if_pos rfl, if_pos ⟨hpos, hdvd⟩]

/-- The general behaviour of `ImgPatches.forward` on a (bsz, c, h, w) image
with window `pS` fitting both spatial dimensions: it succeeds, produces
`⌊h/pS⌋·⌊w/pS⌋` patches of flattened size `c·pS²`, and entry `lin` of the
flat output reads the input pixel
`img[i0, i1, i2·pS + i4, i3·pS + i5]` where `[i0, i1, i2, i3, i4, i5]` is
the row-major multi-index of `lin` in the grid
`(bsz, c, ⌊h/pS⌋, ⌊w/pS⌋, pS, pS)` — i.e. the data is the double unfold
linearised without any channel regrouping. -/
theorem ImgPatches.forward_general (bsz c h w pS : ℕ) (img : Tensor α)
    (hs : img.shape = [bsz, c, h, w]) (hb : 0 < bsz) (hc : 0 < c)
    (hP : 0 < pS) (hh : pS ≤ h) (hw : pS ≤ w) :
    ∃ out, ImgPatches.forward pS img = some out ∧
      out.shape = [bsz, h / pS * (w / pS), c * pS * pS] ∧
      out.data.length = ([bsz, c, h / pS, w / pS, pS, pS] : List ℕ).prod ∧
      ∀ lin, lin < out.data.length →
        out.getLin lin =
          img.get
            [(unflattenIdx [bsz, c, h / pS, w / pS, pS, pS] lin).getD 0 0,
             (unflattenIdx [bsz, c, h / pS, w / pS, pS, pS] lin).getD 1 0,
             (unflattenIdx [bsz, c, h / pS, w / pS, pS, pS] lin).getD 2 0 * pS
               + (unflattenIdx [bsz, c, h / pS, w / pS, pS, pS] lin).getD 4 0,
             (unflattenIdx [bsz, c, h / pS, w / pS, pS, pS] lin).getD 3 0 * pS
               + (unflattenIdx [bsz, c, h / pS, w / pS, pS, pS] lin).getD 5 0]
      := by
  have hA := Tensor.unfoldDim_eq img 2 pS pS (by rw [hs]; simp) hP
    (by rw [hs]; exact hh)
  rw [hs] at hA
  rw [show (([bsz, c, h, w] : List ℕ).getD 2 0) = h from rfl] at hA
  rw [show (([bsz, c, h, w] : List ℕ).set 2 ((h - pS) / pS + 1)) =
    [bsz, c, (h - pS) / pS + 1, w] from rfl] at hA
  rw [show ((h - pS) / pS + 1) = h / pS from (Nat.div_eq_sub_div hP hh).symm]
    at hA
  rw [show (([bsz, c, h / pS, w] : List ℕ) ++ [pS]) =
    [bsz, c, h / pS, w, pS] from rfl] at hA
  rw [show (([bsz, c, h, w] : List ℕ).length) = 4 from rfl] at hA
  set T1 : Tensor α :=
    ⟨[bsz, c, h / pS, w, pS],
      tabulate (([bsz, c, h / pS, w, pS] : List ℕ).prod) (fun lin =>
        let idx := unflattenIdx [bsz, c, h / pS, w, pS] lin
        img.get ((idx.take 4).set 2
          (idx.getD 2 0 * pS + idx.getD 4 0)))⟩ with hT1
  have hB := Tensor.unfoldDim_eq T1 3 pS pS (by rw [hT1]; simp) hP
    (by rw [hT1]; exact hw)
  rw [show (T1.shape.getD 3 0) = w from rfl] at hB
  rw [show (T1.shape.set 3 ((w - pS) / pS + 1)) =
    [bsz, c, h / pS, (w - pS) / pS + 1, pS] from rfl] at hB
  rw [show ((w - pS) / pS + 1) = w / pS from (Nat.div_eq_sub_div hP hw).symm]
    at hB
  rw [show (([bsz, c, h / pS, w / pS, pS] : List ℕ) ++ [pS]) =
    [bsz, c, h / pS, w / pS, pS, pS] from rfl] at hB
  rw [show T1.shape.length = 5 from rfl] at hB
  set T2 : Tensor α :=
    ⟨[bsz, c, h / pS, w / pS, pS, pS],
      tabulate (([bsz, c, h / pS, w / pS, pS, pS] : List ℕ).prod) (fun lin =>
        let idx := unflattenIdx [bsz, c, h / pS, w / pS, pS, pS] lin
        T1.get ((idx.take 5).set 3
          (idx.getD 3 0 * pS + idx.getD 5 0)))⟩ with hT2
  have hT2len : T2.data.length =
      ([bsz, c, h / pS, w / pS, pS, pS] : List ℕ).prod := by
    rw [hT2]
    exact tabulate_length _ _
  have hknown : 0 < bsz * (c * pS * pS) :=
    Nat.mul_pos hb (Nat.mul_pos (Nat.mul_pos hc hP) hP)
  have hfactor : ([bsz, c, h / pS, w / pS, pS, pS] : List ℕ).prod =
      bsz * (c * pS * pS) * (h / pS * (w / pS)) := by
    simp only [List.prod_cons, List.prod_nil]
    ring
  have hdvd : bsz * (c * pS * pS) ∣ T2.data.length := by
    rw [hT2len, hfactor]
    exact Dvd.intro _ rfl
  have hC := T2.reshapeInfer_bk bsz (c * pS * pS) hknown hdvd
  have hquot : T2.data.length / (bsz * (c * pS * pS)) =
      h / pS * (w / pS) := by
    rw [hT2len, hfactor]
    exact Nat.mul_div_cancel_left _ hknown
  rw [hquot] at hC
  refine ⟨⟨[bsz, h / pS * (w / pS), c * pS * pS], T2.data⟩, ?_, rfl, hT2len,
    ?_⟩
  · simp only [ImgPatches.forward, hs]
    rw [hA]
    simp only [Option.bind_eq_bind, Option.some_bind]
    rw [hB]
    simp only [Option.bind_eq_bind, Option.some_bind]
    rw [hC]
  · have hT1get : ∀ idx, IdxValid idx [bsz, c, h / pS, w, pS] →
        T1.get idx =
          img.get ((idx.take 4).set 2
            (idx.getD 2 0 * pS + idx.getD 4 0)) := by
      intro idx hv
      rw [hT1, Tensor.get_mk_tabulate _ _ hv]
      dsimp only
      rw [unflattenIdx_flattenIdx hv]
    have hT2get : ∀ j, j < ([bsz, c, h / pS, w / pS, pS, pS] : List ℕ).prod →
        T2.getLin j = T1.get
          (((unflattenIdx [bsz, c, h / pS, w / pS, pS, pS] j).take 5).set 3
            ((unflattenIdx [bsz, c, h / pS, w / pS, pS, pS] j).getD 3 0 * pS +
             (unflattenIdx [bsz, c, h / pS, w / pS, pS, pS] j).getD 5 0)) := by
      intro j hj
      rw [hT2]
      exact Tensor.getLin_mk_tabulate _ _ hj
    intro lin hlin
    rw [hT2len] at hlin
    have hval6 := unflattenIdx_valid (s := [bsz, c, h / pS, w / pS, pS, pS])
      hlin
    rw [show (Tensor.mk [bsz, h / pS * (w / pS), c * pS * pS]
        T2.data).getLin lin = T2.getLin lin from rfl]
    rw [hT2get lin hlin]
    generalize hidx : unflattenIdx [bsz, c, h / pS, w / pS, pS, pS] lin
      = idx6 at hval6 ⊢
    obtain ⟨i0, r0, rfl, hi0, hv0⟩ := hval6.cons_inv
    obtain ⟨i1, r1, rfl, hi1, hv1⟩ := hv0.cons_inv
    obtain ⟨i2, r2, rfl, hi2, hv2⟩ := hv1.cons_inv
    obtain ⟨i3, r3, rfl, hi3, hv3⟩ := hv2.cons_inv
    obtain ⟨i4, r4, rfl, hi4, hv4⟩ := hv3.cons_inv
    obtain ⟨i5, r5, rfl, hi5, hv5⟩ := hv4.cons_inv
    rw [hv5.nil_inv]
    rw [show (([i0, i1, i2, i3, i4, i5] : List ℕ).take 5).set 3
      (([i0, i1, i2, i3, i4, i5] : List ℕ).getD 3 0 * pS +
        ([i0, i1, i2, i3, i4, i5] : List ℕ).getD 5 0) =
      [i0, i1, i2, i3 * pS + i5, i4] from rfl]
    have hval5 : IdxValid [i0, i1, i2, i3 * pS + i5, i4]
        [bsz, c, h / pS, w, pS] := by
      refine List.Forall₂.cons hi0 (List.Forall₂.cons hi1
        (List.Forall₂.cons hi2 (List.Forall₂.cons ?_
        (List.Forall₂.cons hi4 List.Forall₂.nil))))
      calc i3 * pS + i5 < i3 * pS + pS := Nat.add_lt_add_left hi5 _
        _ = (i3 + 1) * pS := by ring
        _ ≤ w / pS * pS := Nat.mul_le_mul_right _ hi3
        _ ≤ w := Nat.div_mul_le_self w pS
    rw [hT1get _ hval5]
    rfl

theorem Tensor.matmulLast_some (a b : Tensor α)
    (h1 : 2 ≤ a.shape.length) (h2 : a.shape.length = b.shape.length)
    (h3 : a.shape.dropLast.dropLast = b.shape.dropLast.dropLast)
    (h4 : a.shape.getD (a.shape.length - 1) 0 =
      b.shape.getD (a.shape.length - 2) 0) :
    ∃ z, a.matmulLast b = some z ∧
      z.shape = a.shape.dropLast ++
        [b.shape.getD (a.shape.length - 1) 0] ∧ z.Wf := by
  unfold Tensor.matmulLast
  dsimp only
  rw [if_pos ⟨h1, h2, h3, h4⟩]
  exact ⟨_, rfl, rfl, by simp [Tensor.Wf, tabulate_length]⟩

/-- C7: for every configuration with `embed_dim = D` divisible by
`num_heads ≥ 1` and weights of the sizes the constructor creates
(`qkv`: 3D×D, `out`: D×D), `Attention.forward` maps any input of shape
(B, N, D) with B, N ≥ 1 to an output of shape (B, N, D). -/
theorem claim_C7 {μ : Type} (ops : ScalarOps α) (p : AttnP α)
    (nAttn nProj : ℕ → Bool) (x : Tensor α) (mask : Option μ) (B N D : ℕ)
    (hx : x.shape = [B, N, D]) (hH : 0 < p.numHeads) (hdvd : p.numHeads ∣ D)
    (hB1 : 1 ≤ B) (hN1 : 1 ≤ N)
    (hqlen : p.qkvW.length = 3 * D) (hqrows : ∀ r ∈ p.qkvW, r.length = D)
    (holen : p.outW.length = D) (horows : ∀ r ∈ p.outW, r.length = D) :
    ∃ y, Attention.forward ops p nAttn nProj x mask = some y ∧
      y.shape = [B, N, D] := by
  have hH0 : p.numHeads ≠ 0 := Nat.pos_iff_ne_zero.mp hH
  have hq : (p.qkvW.headD []).length = D :=
    headD_length_of_forall hqlen hqrows (by omega)
  obtain ⟨y1, hy1, hy1s, hy1w⟩ := x.linear_shape p.qkvW none
    (by rw [hx, hq]; rfl)
  have hy1s' : y1.shape = [B, N, 3 * D] := by
    rw [hy1s, hx, hqlen]; rfl
  have hy1len : y1.data.length = B * (N * (3 * D)) := by
    have hwf := hy1w
    unfold Tensor.Wf at hwf
    rw [hwf, hy1s']
    simp [List.prod_cons]
  have hHD : p.numHeads * (D / p.numHeads) = D := Nat.mul_div_cancel' hdvd
  have hprod : ([B, N, 3, p.numHeads, D / p.numHeads] : List ℕ).prod =
      y1.data.length := by
    rw [hy1len]
    simp only [List.prod_cons, List.prod_nil, mul_one]
    rw [hHD]
  have hres := y1.reshape_of_eq hprod
  -- the per-head tensors
  have hQs : (((⟨[B, N, 3, p.numHeads, D / p.numHeads], y1.data⟩ :
      Tensor α).permute [2, 0, 3, 1, 4]).select0 0).shape =
      [B, p.numHeads, N, D / p.numHeads] := rfl
  have hKts : ((((⟨[B, N, 3, p.numHeads, D / p.numHeads], y1.data⟩ :
      Tensor α).permute [2, 0, 3, 1, 4]).select0 1).permute
        [0, 1, 3, 2]).shape = [B, p.numHeads, D / p.numHeads, N] := rfl
  have hVs : (((⟨[B, N, 3, p.numHeads, D / p.numHeads], y1.data⟩ :
      Tensor α).permute [2, 0, 3, 1, 4]).select0 2).shape =
      [B, p.numHeads, N, D / p.numHeads] := rfl
  obtain ⟨z1, hz1, hz1s, hz1w⟩ := Tensor.matmulLast_some
    (((⟨[B, N, 3, p.numHeads, D / p.numHeads], y1.data⟩ :
      Tensor α).permute [2, 0, 3, 1, 4]).select0 0)
    ((((⟨[B, N, 3, p.numHeads, D / p.numHeads], y1.data⟩ :
      Tensor α).permute [2, 0, 3, 1, 4]).select0 1).permute [0, 1, 3, 2])
    (by rw [hQs]; simp) (by rw [hQs, hKts]; rfl) (by rw [hQs, hKts]; rfl)
    (by rw [hQs, hKts]; rfl)
  have hz1s' : z1.shape = [B, p.numHeads, N, N] := by
    rw [hz1s, hQs, hKts]; rfl
  have hds : (((z1.scaleBy (Attention.scale ops p.dim)).softmaxLast
      ops.exp).dropout p.attnDrop nAttn).shape = [B, p.numHeads, N, N] := by
    rw [Tensor.dropout_shape, Tensor.softmaxLast_shape, Tensor.scaleBy_shape,
      hz1s']
  obtain ⟨z2, hz2, hz2s, hz2w⟩ := Tensor.matmulLast_some
    (((z1.scaleBy (Attention.scale ops p.dim)).softmaxLast
      ops.exp).dropout p.attnDrop nAttn)
    (((⟨[B, N, 3, p.numHeads, D / p.numHeads], y1.data⟩ :
      Tensor α).permute [2, 0, 3, 1, 4]).select0 2)
    (by rw [hds]; simp) (by rw [hds, hVs]; rfl) (by rw [hds, hVs]; rfl)
    (by rw [hds, hVs]; rfl)
  have hz2s' : z2.shape = [B, p.numHeads, N, D / p.numHeads] := by
    rw [hz2s, hds, hVs]; rfl
  have hpermS : (z2.permute [0, 2, 1, 3]).shape =
      [B, N, p.numHeads, D / p.numHeads] := by
    rw [show (z2.permute [0, 2, 1, 3]).shape =
      [z2.shape.getD 0 0, z2.shape.getD 2 0, z2.shape.getD 1 0,
        z2.shape.getD 3 0] from rfl, hz2s']
    rfl
  have hpermLen : (z2.permute [0, 2, 1, 3]).data.length =
      ([B, N, p.numHeads, D / p.numHeads] : List ℕ).prod := by
    have hwf := Tensor.permute_wf z2 [0, 2, 1, 3]
    unfold Tensor.Wf at hwf
    rw [hwf, hpermS]
  have hprod2 : ([B, N, D] : List ℕ).prod =
      (z2.permute [0, 2, 1, 3]).data.length := by
    rw [hpermLen]
    simp only [List.prod_cons, List.prod_nil, mul_one]
    rw [hHD]
  have hres2 := (z2.permute [0, 2, 1, 3]).reshape_of_eq hprod2
  have ho : (p.outW.headD []).length = D :=
    headD_length_of_forall holen horows (fun hd => hd)
  obtain ⟨out, hout, houts, houtw⟩ :=
    Tensor.linear_shape (⟨[B, N, D], (z2.permute [0, 2, 1, 3]).data⟩ :
      Tensor α) p.outW (some p.outB) (by rw [show (Tensor.mk [B, N, D]
        (z2.permute [0, 2, 1, 3]).data).shape = [B, N, D] from rfl, ho]; rfl)
  have houts' : out.shape = [B, N, D] := by
    rw [houts, holen]; rfl
  refine ⟨out.dropout p.projDrop nProj, ?_,
    by rw [Tensor.dropout_shape, houts']⟩
  simp only [Attention.forward, hx]
  rw [if_neg hH0, hy1]
  simp only [Option.bind_eq_bind, Option.some_bind]
  rw [hres]
  simp only [Option.bind_eq_bind, Option.some_bind]
  try dsimp only
  rw [hz1]
  simp only [Option.bind_eq_bind, Option.some_bind]
  try dsimp only
  rw [hz2]
  simp only [Option.bind_eq_bind, Option.some_bind]
  try dsimp only
  rw [hres2]
  simp only [Option.bind_eq_bind, Option.some_bind]
  rw [hout]
  simp only [Option.bind_eq_bind, Option.some_bind]
  rfl

/-- C7 (witness): the shape statement applied at a concrete configuration
`D = 2`, `Hn = 1`, `B = N = 1` over `ℚ`. -/
theorem claim_C7_witness :
    ∃ y, Attention.forward (⟨id, id, id⟩ : ScalarOps ℚ)
      ⟨2, 1, [[1, 0], [0, 1], [1, 1], [2, 0], [0, 2], [1, 2]],
        [[1, 0], [0, 1]], [0, 0], 0, 0⟩
      (fun _ => false) (fun _ => false) ⟨[1, 1, 2], [1, 2]⟩
      (none : Option Unit) = some y ∧ y.shape = [1, 1, 2] :=
  claim_C7 ⟨id, id, id⟩
    ⟨2, 1, [[1, 0], [0, 1], [1, 1], [2, 0], [0, 2], [1, 2]],
      [[1, 0], [0, 1]], [0, 0], 0, 0⟩
    (fun _ => false) (fun _ => false) ⟨[1, 1, 2], [1, 2]⟩ none 1 1 2
    rfl (by decide) (by decide) (by decide) (by decide) (by decide)
    (by decide) (by decide) (by decide)

/-- C9: with `patch_size = 16` on a (1, 3, 32, 32) image the patch sequence
has shape (1, 4, 768); in general, on a (B, C, H, W) image with positive
dimensions and `P` dividing `H` and `W`, the output has `(H/P)·(W/P)`
patches of flattened dimension `C·P·P`. -/
theorem claim_C9 :
    ((ImgPatches.forward 16
      (⟨[1, 3, 32, 32], List.replicate 3072 (0 : ℚ)⟩ : Tensor ℚ)).map
        Tensor.shape = some [1, 4, 768]) ∧
    (∀ (img : Tensor α) (bsz c h w pS : ℕ), img.shape = [bsz, c, h, w] →
      0 < bsz → 0 < c → 0 < h → 0 < w → 0 < pS → pS ∣ h → pS ∣ w →
      ∃ out, ImgPatches.forward pS img = some out ∧
        out.shape = [bsz, h / pS * (w / pS), c * pS * pS]) := by
  constructor
  · obtain ⟨out, h1, h2, _, _⟩ := ImgPatches.forward_general 1 3 32 32 16
      (⟨[1, 3, 32, 32], List.replicate 3072 (0 : ℚ)⟩ : Tensor ℚ) rfl
      (by norm_num) (by norm_num) (by norm_num) (by norm_num) (by norm_num)
    rw [h1, Option.map_some', h2]
  · intro img bsz c h w pS hs hb hc hh0 hw0 hP hdh hdw
    obtain ⟨out, h1, h2, h3, h4⟩ := ImgPatches.forward_general bsz c h w pS
      img hs hb hc hP (Nat.le_of_dvd hh0 hdh) (Nat.le_of_dvd hw0 hdw)
    exact ⟨out, h1, h2⟩

/-- C9 (witness): the general shape statement applied at the concrete
(1, 3, 32, 32) image with `patch_size = 16`. -/
theorem claim_C9_witness :
    ∃ out, ImgPatches.forward 16
      (⟨[1, 3, 32, 32], List.replicate 3072 (0 : ℚ)⟩ : Tensor ℚ) = some out ∧
      out.shape = [1, 32 / 16 * (32 / 16), 3 * 16 * 16] :=
  (claim_C9 (α := ℚ)).2 ⟨[1, 3, 32, 32], List.replicate 3072 (0 : ℚ)⟩
    1 3 32 32 16 rfl (by decide) (by decide) (by decide) (by decide)
    (by decide) (by decide) (by decide)

/-- C10 (counterexample): on a (1, 1, 1, 2) image with `patch_size = 2` the
height (1, not divisible by 2) is smaller than the window, and
`Tensor.unfold` raises instead of returning `⌊1/2⌋·⌊2/2⌋ = 0` patches — so
"for every image tensor with H or W not divisible by P, forward does not
raise" is false. -/
theorem claim_C10_counterexample :
    ¬ (2 : ℕ) ∣ 1 ∧
    ImgPatches.forward 2 (⟨[1, 1, 1, 2], [5, 6]⟩ : Tensor ℚ) = none := by
  decide

/-- C10 (amended): for every image with `B, C ≥ 1` and window `P` fitting
both spatial dimensions (`0 < P ≤ H, W`), `ImgPatches.forward` does not
raise even when `H` or `W` is not divisible by `P`: it returns
`⌊H/P⌋·⌊W/P⌋` patches of flattened dimension `C·P·P`, and every output
entry reads a pixel with row `< ⌊H/P⌋·P` and column `< ⌊W/P⌋·P` — the
trailing rows/columns that do not fill a complete window are silently
discarded.  (When `H < P` or `W < P`, the unfold raises instead.) -/
theorem claim_C10_amended (img : Tensor α) (bsz c h w pS : ℕ)
    (hs : img.shape = [bsz, c, h, w]) (hb : 0 < bsz) (hc : 0 < c)
    (hP : 0 < pS) (hh : pS ≤ h) (hw : pS ≤ w) :
    ∃ out, ImgPatches.forward pS img = some out ∧
      out.shape = [bsz, h / pS * (w / pS), c * pS * pS] ∧
      ∀ lin, lin < out.data.length →
        ∃ i0 i1 i2 i3 i4 i5,
          unflattenIdx [bsz, c, h / pS, w / pS, pS, pS] lin =
            [i0, i1, i2, i3, i4, i5] ∧
          out.getLin lin = img.get [i0, i1, i2 * pS + i4, i3 * pS + i5] ∧
          i2 * pS + i4 < h / pS * pS ∧ i3 * pS + i5 < w / pS * pS := by
  obtain ⟨out, h1, h2, h3, h4⟩ :=
    ImgPatches.forward_general bsz c h w pS img hs hb hc hP hh hw
  refine ⟨out, h1, h2, ?_⟩
  intro lin hlin
  have hval6 := unflattenIdx_valid (s := [bsz, c, h / pS, w / pS, pS, pS])
    (h3 ▸ hlin)
  have hform := h4 lin hlin
  revert hform hval6
  generalize unflattenIdx [bsz, c, h / pS, w / pS, pS, pS] lin = idx6
  intro hval6 hform
  obtain ⟨i0, r0, rfl, hi0, hv0⟩ := hval6.cons_inv
  obtain ⟨i1, r1, rfl, hi1, hv1⟩ := hv0.cons_inv
  obtain ⟨i2, r2, rfl, hi2, hv2⟩ := hv1.cons_inv
  obtain ⟨i3, r3, rfl, hi3, hv3⟩ := hv2.cons_inv
  obtain ⟨i4, r4, rfl, hi4, hv4⟩ := hv3.cons_inv
  obtain ⟨i5, r5, rfl, hi5, hv5⟩ := hv4.cons_inv
  rw [hv5.nil_inv] at hform ⊢
  refine ⟨i0, i1, i2, i3, i4, i5, rfl, by simpa using hform, ?_, ?_⟩
  · calc i2 * pS + i4 < i2 * pS + pS := Nat.add_lt_add_left hi4 _
      _ = (i2 + 1) * pS := by ring
      _ ≤ h / pS * pS := Nat.mul_le_mul_right _ hi2
  · calc i3 * pS + i5 < i3 * pS + pS := Nat.add_lt_add_left hi5 _
      _ = (i3 + 1) * pS := by ring
      _ ≤ w / pS * pS := Nat.mul_le_mul_right _ hi3

/-- C10 (witness): the amended statement at a concrete (1, 1, 3, 3) image
with `patch_size = 2` (neither 3 nor 3 divisible by 2: one patch, the
trailing row and column discarded). -/
theorem claim_C10_witness :
    ∃ out, ImgPatches.forward 2
      (⟨[1, 1, 3, 3], [0, 1, 2, 3, 4, 5, 6, 7, 8]⟩ : Tensor ℚ) = some out ∧
      out.shape = [1, 3 / 2 * (3 / 2), 1 * 2 * 2] ∧
      ∀ lin, lin < out.data.length →
        ∃ i0 i1 i2 i3 i4 i5,
          unflattenIdx [1, 1, 3 / 2, 3 / 2, 2, 2] lin =
            [i0, i1, i2, i3, i4, i5] ∧
          out.getLin lin =
            (⟨[1, 1, 3, 3], [0, 1, 2, 3, 4, 5, 6, 7, 8]⟩ : Tensor ℚ).get
              [i0, i1, i2 * 2 + i4, i3 * 2 + i5] ∧
          i2 * 2 + i4 < 3 / 2 * 2 ∧ i3 * 2 + i5 < 3 / 2 * 2 :=
  claim_C10_amended ⟨[1, 1, 3, 3], [0, 1, 2, 3, 4, 5, 6, 7, 8]⟩ 1 1 3 3 2
    rfl (by decide) (by decide) (by decide) (by decide) (by decide)

/-- C6: with all dropout rates zero (inference mode) and identical
parameters, `ViT.forward` does not depend on the dropout randomness: any
two invocations on the same input produce identical output. -/
theorem claim_C6 {μ : Type} (ops : ScalarOps α) (p : ViTP α)
    (h : p.dropFree) (ns ns' : ViTNoise) (x : Tensor α) (mask : Option μ) :
    ViT.forward ops p ns x mask = ViT.forward ops p ns' x mask := by
  rcases hs : x.shape with _ | ⟨b, rest⟩ <;> simp only [ViT.forward, hs]
  refine bind_congr fun cls => bind_congr fun pt => bind_congr fun emb =>
    bind_congr fun xc => bind_congr fun xp => ?_
  rw [Transformer.forward_noise_inert ops h.1 ns.blocks ns'.blocks xp mask]
  refine bind_congr fun xt => bind_congr fun x0 => ?_
  exact Head.forward_noise_noop ops h.2 ns.head ns'.head _

/-- C6 (witness): a concrete one-block ViT over `ℚ` with all dropout rates
zero evaluated under two different dropout oracles. -/
theorem claim_C6_witness :
    ViT.forward (⟨fun x => x + 1, id, id⟩ : ScalarOps ℚ)
      ⟨1, [[1]], [0], ⟨[1, 2, 1], [0, 0]⟩, ⟨[1, 1, 1], [3]⟩,
        [⟨⟨[1], [0]⟩, ⟨1, 1, [[2], [3], [5]], [[7]], [11], 0, 0⟩,
          ⟨[1], [0]⟩, ⟨[[1]], [0], [[1]], [0], 0⟩⟩],
        ⟨[1], [0]⟩, .linearHead [[1]] [0]⟩
      ⟨fun _ => ⟨fun _ => false, fun _ => false, fun _ => false⟩,
        fun _ => false⟩
      ⟨[1, 1, 1, 1], [9]⟩ (none : Option Unit) =
    ViT.forward (⟨fun x => x + 1, id, id⟩ : ScalarOps ℚ)
      ⟨1, [[1]], [0], ⟨[1, 2, 1], [0, 0]⟩, ⟨[1, 1, 1], [3]⟩,
        [⟨⟨[1], [0]⟩, ⟨1, 1, [[2], [3], [5]], [[7]], [11], 0, 0⟩,
          ⟨[1], [0]⟩, ⟨[[1]], [0], [[1]], [0], 0⟩⟩],
        ⟨[1], [0]⟩, .linearHead [[1]] [0]⟩
      ⟨fun _ => ⟨fun _ => true, fun _ => true, fun _ => true⟩,
        fun _ => true⟩
      ⟨[1, 1, 1, 1], [9]⟩ (none : Option Unit) := by
  apply claim_C6
  constructor
  · intro bp hbp
    rcases List.mem_singleton.mp hbp with rfl
    exact ⟨rfl, rfl, rfl⟩
  · trivial

end VitSpec

